import Mathlib

/-!
Shallow embedding of `src/caseTable.js` (the case-table dimension builder):
cell parsing helpers, the dimension data model, the build / reference-resolution /
metadata-merge / entity-reconciliation / missing-dimension-synthesis passes,
followed by theorems settling the specification claims.

Modelling conventions:
* JavaScript numbers are modelled as `JsNum`: exact rationals for finite doubles
  plus the three non-finite values `NaN`, `Infinity`, `-Infinity`.  Floating-point
  rounding and overflow are not modelled; no claim depends on them.
* `undefined` and `null` cells are merged into the single constructor `Cell.none`
  (the script treats them identically in every guard it performs).
* `uuidv4()` is modelled by deterministic fresh identifiers (distinct strings per
  construction site and index); the script depends only on their distinctness.
* `process.exit(1)` during the metadata merge is modelled by `Except.error`
  carrying the printed diagnostics.
-/

namespace DDG

/-! ### JavaScript string/number host primitives -/

/-- List-level versions of the string primitives the script uses (chosen over
the `String` library functions so that all proofs reduce in the kernel;
JS strings are UTF-16 but every comparison key in the script is ASCII). -/
def sStartsWith (s pre : String) : Bool := pre.data.isPrefixOf s.data

def sToUpper (s : String) : String := ⟨s.data.map Char.toUpper⟩

def sTake (s : String) (n : Nat) : String := ⟨s.data.take n⟩

def sDrop (s : String) (n : Nat) : String := ⟨s.data.drop n⟩

/-- The `\s` class of the regexes in `cleanId`, and `String.prototype.trim`. -/
def jsWhitespace (c : Char) : Bool := c.isWhitespace

/-- `String.prototype.trim`. -/
def jsTrim (s : String) : String :=
  ⟨((s.data.dropWhile jsWhitespace).reverse.dropWhile jsWhitespace).reverse⟩

/-- Characters kept by the second replace of `cleanId`: `[A-Za-z0-9_]`. -/
def isIdChar (c : Char) : Bool := c.isAlpha || c.isDigit || c = '_'

/-- `cleanId` (caseTable.js lines 36-42) on an already stringified value:
first remove all whitespace (`/\s+/g`), then keep only `[A-Za-z0-9_]`. -/
def cleanId (s : String) : String :=
  ⟨(s.data.filter (fun c => !jsWhitespace c)).filter isIdChar⟩

/-- Characters kept by the strip in `parseNumberOrNullCell`: `[0-9.\-eE+]`. -/
def isNumChar (c : Char) : Bool :=
  c.isDigit || c = '.' || c = '-' || c = 'e' || c = 'E' || c = '+'

def digitsToNat (l : List Char) : Nat :=
  l.foldl (fun a c => a * 10 + (c.toNat - 48)) 0

def powTen : Nat → Rat
  | 0 => 1
  | n + 1 => 10 * powTen n

def tenPow (e : Int) : Rat :=
  if 0 ≤ e then powTen e.toNat else 1 / powTen (-e).toNat

/-- Exponent digits with an optional sign; the whole rest of the input must be
consumed (anything else makes JS `Number()` yield `NaN`). -/
def parseSignedDigits (l : List Char) : Option Int :=
  let p : Int × List Char :=
    match l with
    | '-' :: t => (-1, t)
    | '+' :: t => (1, t)
    | t => (1, t)
  if p.2 ≠ [] ∧ p.2.all Char.isDigit then some (p.1 * digitsToNat p.2) else none

/-- Optional exponent part `[eE][+-]?digits` at the end of a numeric literal. -/
def parseExpPart : List Char → Option Int
  | [] => some 0
  | 'e' :: r => parseSignedDigits r
  | 'E' :: r => parseSignedDigits r
  | _ => none

/-- JS `Number()` on a string over the alphabet `[0-9.eE+-]` (the only strings
the script ever converts: the stripped cell text).  `none` models `NaN`;
the empty string converts to `0`. -/
def jsNumberList : List Char → Option Rat
  | [] => some 0
  | l =>
    let sgn : Rat := match l.head? with | some '-' => -1 | _ => 1
    let l1 := match l with | '-' :: t => t | '+' :: t => t | t => t
    let ip := l1.takeWhile Char.isDigit
    let l2 := l1.dropWhile Char.isDigit
    match l2 with
    | '.' :: l3 =>
      let fp := l3.takeWhile Char.isDigit
      let l4 := l3.dropWhile Char.isDigit
      if ip = [] ∧ fp = [] then none
      else (parseExpPart l4).map fun e =>
        sgn * ((digitsToNat ip : Rat) + (digitsToNat fp : Rat) / powTen fp.length) * tenPow e
    | _ =>
      if ip = [] then none
      else (parseExpPart l2).map fun e => sgn * (digitsToNat ip : Rat) * tenPow e

/-- A JavaScript number: finite (exact rational) or one of the non-finite values. -/
inductive JsNum where
  | finite : Rat → JsNum
  | nan : JsNum
  | posInf : JsNum
  | negInf : JsNum
deriving DecidableEq, Repr

/-- JS number-to-string; exact for integers (the only numeric strings the claims
evaluate concretely), and a fixed deterministic form for other rationals. -/
def ratToJsString (q : Rat) : String :=
  if q.den = 1 then toString q.num else toString q

def jsNumToString : JsNum → String
  | .nan => "NaN"
  | .posInf => "Infinity"
  | .negInf => "-Infinity"
  | .finite q => ratToJsString q

/-- The JS comparison `n <= 0` (false for `NaN`). -/
def jsLeZero : JsNum → Bool
  | .finite q => q ≤ 0
  | .negInf => true
  | _ => false

/-- A raw spreadsheet cell as delivered by `sheet_to_json(_, {header:1, raw:true})`. -/
inductive Cell where
  | none : Cell
  | str : String → Cell
  | num : JsNum → Cell
  | bool : Bool → Cell
deriving DecidableEq, Repr

/-- JS `String(raw)`; never applied to `undefined`/`null` on the paths the
script takes (each caller guards those first). -/
def cellToString : Cell → String
  | .none => "undefined"
  | .str s => s
  | .num j => jsNumToString j
  | .bool b => if b then "true" else "false"

/-- `cleanId` as called on raw cells: `undefined`/`null` give `''`, anything else
is stringified then cleaned (caseTable.js lines 36-42). -/
def cleanIdCell : Cell → String
  | .none => ""
  | c => cleanId (cellToString c)

/-- `isCellEmpty` (caseTable.js lines 75-77). -/
def isCellEmpty : Cell → Bool
  | .none => true
  | .str s => jsTrim s = ""
  | _ => false

/-- The string branch of `parseNumberOrNullCell` (lines 53-58): trim, reject
blank, strip to `[0-9.\-eE+]`, convert, reject non-finite, floor `<= 0` to 1. -/
def parseStringPathNum (s0 : String) : Option Rat :=
  let s := jsTrim s0
  if s = "" then none
  else
    match jsNumberList (s.data.filter isNumChar) with
    | none => none
    | some n => some (if n ≤ 0 then 1 else n)

/-- `parseNumberOrNullCell` (caseTable.js lines 46-59). -/
def parseNumberOrNullCell : Cell → Option Rat
  | .none => none
  | .num (.finite q) => some (if q ≤ 0 then 1 else q)
  | .num j => parseStringPathNum (jsNumToString j)
  | .bool _ => none
  | .str s => if s = "" then none else parseStringPathNum s

/-- `metadataCellValue` (caseTable.js lines 62-72). -/
def metadataCellValue : Cell → Option String
  | .none => none
  | .num j => some (jsNumToString (if jsLeZero j then .finite 1 else j))
  | c => let s := jsTrim (cellToString c); if s = "" then Option.none else some s

/-- The loop of `colNumberToLetter`, with explicit fuel so the recursion is
structural (the fuel never runs out: `n / 26 < n + 1`). -/
def colLetterGo : Nat → Nat → String
  | _, 0 => ""
  | 0, _ + 1 => ""
  | fuel + 1, n + 1 =>
    colLetterGo fuel (n / 26) ++ (⟨[Char.ofNat (65 + n % 26)]⟩ : String)

/-- `colNumberToLetter` (caseTable.js lines 309-317): 1-based column number to
an Excel column letter. -/
def colNumberToLetter (n : Nat) : String := colLetterGo n n

/-- `uuidRegex` (caseTable.js line 95): the canonical 8-4-4-4-12 shape with the
version nibble in `[1-5]` and the variant nibble in `[89ab]`, case-insensitive. -/
def uuidTest (s : String) : Bool :=
  let l := s.data.map Char.toLower
  let hex : Char → Bool := fun c => c.isDigit || ('a' ≤ c && c ≤ 'f')
  decide (l.length = 36) &&
  (l.take 8).all hex &&
  decide (l.getD 8 ' ' = '-') &&
  ((l.drop 9).take 4).all hex &&
  decide (l.getD 13 ' ' = '-') &&
  (let c := l.getD 14 ' '; '1' ≤ c && c ≤ '5') &&
  ((l.drop 15).take 3).all hex &&
  decide (l.getD 18 ' ' = '-') &&
  (let c := l.getD 19 ' '; c = '8' || c = '9' || c = 'a' || c = 'b') &&
  ((l.drop 20).take 3).all hex &&
  decide (l.getD 23 ' ' = '-') &&
  ((l.drop 24).take 12).all hex

/-- First index of `pat` as a sublist (JS `String.prototype.indexOf`). -/
def subIndex (pat : List Char) : List Char → Option Nat
  | [] => if pat.isEmpty then some 0 else Option.none
  | c :: t => if pat.isPrefixOf (c :: t) then some 0 else (subIndex pat t).map (· + 1)

/-- JS `s.indexOf(pat)` returning `none` instead of `-1`. -/
def strIndexOf (s pat : String) : Option Nat := subIndex pat.data s.data

/-- Index-decorated list, modelling JS `for` loops that track the position. -/
def indexed : Nat → List α → List (Nat × α)
  | _, [] => []
  | n, a :: t => (n, a) :: indexed (n + 1) t

/-- Keep the first occurrence of each element, in first-seen order (models the
key order of a JS `Map` / insertion order of a JS `Set`); `seen` accumulates
the elements already emitted. -/
def dedupFirstGo [DecidableEq α] (seen : List α) : List α → List α
  | [] => []
  | a :: t => if a ∈ seen then dedupFirstGo seen t else a :: dedupFirstGo (a :: seen) t

def dedupFirst [DecidableEq α] (l : List α) : List α := dedupFirstGo [] l

/-! ### Data model (§3 of the spec, objects literally built by caseTable.js) -/

inductive DistType where
  | variant : DistType
  | attribute : DistType
deriving DecidableEq, Repr

structure DistItem where
  id : String
  type : DistType
  referencedId : Option String
  referencedItemId : Option String
  «alias» : String
deriving DecidableEq, Repr

structure Distribution where
  distributionItemId : String
  value : Option Rat
deriving DecidableEq, Repr

structure MetaAttr where
  metadataItemId : String
  value : Option String
deriving DecidableEq, Repr

structure Item where
  id : String
  value : String
  stdDistribution : Option Rat
  variants : List String
  distributions : List Distribution
  attributesMetadata : List MetaAttr
deriving DecidableEq, Repr

structure MetaItem where
  id : String
  columnName : String
deriving DecidableEq, Repr

structure Dimension where
  id : String
  name : String
  defaultItem : Bool
  items : List Item
  distributionItems : List DistItem
  attributeMetadataItems : List MetaItem
  referencedId : Option String
deriving DecidableEq, Repr

/-- A worksheet: its name and the rows `sheet_to_json` delivers. -/
structure Sheet where
  name : String
  rows : List (List Cell)
deriving DecidableEq, Repr

/-- An attribute record of `entities.json` (`entitiesDefinitions.attributes`). -/
structure CatalogAttr where
  id : String
  name : String
deriving DecidableEq, Repr

/-! ### Deterministic fresh identifiers standing in for `uuidv4()` -/

def dimId (i : Nat) : String := "dimuuid" ++ Nat.repr i
def itemId (i r : Nat) : String := "itemuuid" ++ Nat.repr i ++ "x" ++ Nat.repr r
def distId (i j : Nat) : String := "distuuid" ++ Nat.repr i ++ "x" ++ Nat.repr j
def metaItemId (i j : Nat) : String := "metauuid" ++ Nat.repr i ++ "x" ++ Nat.repr j
def synthDimId (i : Nat) : String := "synthuuid" ++ Nat.repr i

/-! ### Pass 1: Sheet Classifier & Dimension Builder (caseTable.js lines 105-209) -/

/-- One `distributionItems` entry from a non-empty cleaned header (lines 134-163). -/
def mkDistItem (dimIdx colPos : Nat) (hdrClean : String) : DistItem :=
  let up := sToUpper hdrClean
  if sStartsWith up "VARIANT_" then
    let extracted := cleanId (sDrop hdrClean 8)
    ⟨distId dimIdx colPos, .variant,
      if extracted = "" then Option.none else some extracted, Option.none, extracted⟩
  else if sStartsWith up "ATTRIBUTE_" then
    let extracted := cleanId (sDrop hdrClean 10)
    ⟨distId dimIdx colPos, .attribute, Option.none, Option.none, extracted⟩
  else
    let extracted := cleanId hdrClean
    ⟨distId dimIdx colPos, .variant,
      if extracted = "" then Option.none else some extracted, Option.none, extracted⟩

/-- One item from a surviving data row (lines 173-197). -/
def buildItem (dimIdx rowIdx : Nat) (distItems : List DistItem) (row : List Cell) : Item :=
  { id := itemId dimIdx rowIdx
    value := cleanIdCell (row.headD Cell.none)
    stdDistribution := parseNumberOrNullCell (row.getD 1 Cell.none)
    variants := []
    distributions := (indexed 0 distItems).map fun p =>
      ⟨p.2.id, parseNumberOrNullCell (row.getD (2 + p.1) Cell.none)⟩
    attributesMetadata := [] }

/-- The row scan (lines 166-198): skip fully-empty rows and rows with an empty
first cell. -/
def buildItems (dimIdx : Nat) (distItems : List DistItem) (dataRows : List (List Cell)) :
    List Item :=
  (indexed 0 dataRows).filterMap fun p =>
    if p.2.all isCellEmpty then Option.none
    else if isCellEmpty (p.2.headD Cell.none) then Option.none
    else some (buildItem dimIdx p.1 distItems p.2)

/-- One dimension from a `CaseTable_` sheet (lines 105-209). -/
def buildDimension (dimIdx : Nat) (s : Sheet) : Dimension :=
  let dimNameRaw := sDrop s.name 10
  let c := cleanId dimNameRaw
  let dimName := if c = "" then dimNameRaw else c
  match s.rows with
  | [] => ⟨dimId dimIdx, dimName, false, [], [], [], some dimName⟩
  | headerRow :: dataRows =>
    let headerRowClean := headerRow.map cleanIdCell
    let distHdrs := (headerRowClean.drop 2).filter (fun h => h ≠ "")
    let distItems := (indexed 0 distHdrs).map fun p => mkDistItem dimIdx p.1 p.2
    ⟨dimId dimIdx, dimName, false, buildItems dimIdx distItems dataRows, distItems,
      [], some dimName⟩

/-- `selectedDimensions` after the build loop. -/
def buildSelectedDimensions (sheets : List Sheet) : List Dimension :=
  (indexed 0 (sheets.filter fun s => sStartsWith s.name "CaseTable_")).map fun p =>
    buildDimension p.1 p.2

/-! ### Pass 2: Cross-Dimension Reference Resolver (caseTable.js lines 212-259) -/

/-- `findDimensionByCleanName` (lines 212-216). -/
def findDimensionByCleanName (dims : List Dimension) (nameRaw : String) : Option Dimension :=
  let target := cleanId nameRaw
  if target = "" then Option.none
  else dims.find? fun sd => sToUpper (cleanId sd.name) = sToUpper target

/-- `findItemObjectInDimensionItems` (lines 217-222). -/
def findItemObjectInDimensionItems (d : Dimension) (valueRaw : String) : Option Item :=
  let target := cleanId valueRaw
  if target = "" then Option.none
  else d.items.find? fun it => sToUpper (cleanId it.value) = sToUpper target

/-- Resolution of one `distributionItems` entry (lines 224-258). -/
def resolveDistItem (dims : List Dimension) (dist : DistItem) : DistItem :=
  if dist.type ≠ DistType.attribute then dist
  else if dist.«alias» = "" then
    { dist with referencedId := Option.none, referencedItemId := Option.none }
  else
    match strIndexOf (sToUpper dist.«alias») "WHEREIS" with
    | some whereIdx =>
      let beforeRaw := sTake dist.«alias» whereIdx
      let afterRaw := sDrop dist.«alias» (whereIdx + 7)
      match findDimensionByCleanName dims beforeRaw with
      | some targetDim =>
        { dist with referencedId := some targetDim.id
                    referencedItemId :=
                      (findItemObjectInDimensionItems targetDim afterRaw).map Item.id }
      | Option.none =>
        { dist with referencedId := Option.none, referencedItemId := Option.none }
    | Option.none =>
      { dist with referencedId := (findDimensionByCleanName dims dist.«alias»).map Dimension.id
                  referencedItemId := Option.none }

/-- The whole resolver pass: the lookups read only names/items/ids, which this
pass never changes, so the in-place JS loop equals this functional map. -/
def resolveAttributeRefs (dims : List Dimension) : List Dimension :=
  dims.map fun d => { d with distributionItems := d.distributionItems.map (resolveDistItem dims) }

/-! ### Pass 3: Metadata Merger (caseTable.js lines 262-364) -/

/-- One collected metadata header (`attributeMetadataHeaders` entries, line 286). -/
structure MetaHdr where
  colIndex : Nat
  columnName : String
  rawHdr : Cell
deriving DecidableEq, Repr

/-- One printed duplicate occurrence (lines 305-320). -/
structure DupOcc where
  sheet : String
  colLetter : String
  rawHdr : String
deriving DecidableEq, Repr

/-- The fatal diagnostic of the duplicate-column check, standing in for the
`console.error` report followed by `process.exit(1)` (lines 300-325). -/
structure DupError where
  sheetName : String
  duplicates : List (String × List DupOcc)
deriving DecidableEq, Repr

/-- The dimension name a `Metadata_` sheet addresses (lines 265-266). -/
def metaTargetName (s : Sheet) : String :=
  let raw := sDrop s.name 9
  let c := cleanId raw
  if c = "" then raw else c

/-- Header collection from column B onward (lines 280-287). -/
def metadataHeaders (headerRow : List Cell) : List MetaHdr :=
  (indexed 0 headerRow).filterMap fun p =>
    if p.1 = 0 then Option.none
    else if isCellEmpty p.2 then Option.none
    else
      let columnName := cleanIdCell p.2
      if columnName = "" then Option.none
      else some ⟨p.1, columnName, p.2⟩

/-- All headers of the sheet sharing one upper-cased cleaned name (the per-key
occurrence lists of the `nameToOccurrences` map, lines 290-295). -/
def dupKeyOcc (hs : List MetaHdr) (k : String) : List MetaHdr :=
  hs.filter fun h => sToUpper h.columnName = k

/-- The `duplicates` list (lines 296-299): keys (in first-seen map order) whose
occurrence list has two or more entries. -/
def duplicatesOf (hs : List MetaHdr) : List (String × List MetaHdr) :=
  (dedupFirst (hs.map fun h => sToUpper h.columnName)).filterMap fun k =>
    if 2 ≤ (dupKeyOcc hs k).length then some (k, dupKeyOcc hs k) else Option.none

/-- The diagnostic line printed for one duplicate occurrence (line 319). -/
def mkDupOcc (sheetName : String) (h : MetaHdr) : DupOcc :=
  ⟨sheetName, colNumberToLetter (h.colIndex + 1), cellToString h.rawHdr⟩

/-- Population of one data row of the metadata sheet (lines 332-363), applied to
the live target dimension. -/
def applyMetaRow (hs : List MetaHdr) (metaItems : List MetaItem) (d : Dimension)
    (row : List Cell) : Dimension :=
  if row.all isCellEmpty then d
  else if isCellEmpty (row.headD Cell.none) then d
  else
    let itemValueClean := cleanIdCell (row.headD Cell.none)
    if itemValueClean = "" then d
    else
      match findItemObjectInDimensionItems d itemValueClean with
      | Option.none => d
      | some itemObj =>
        let attrs := (hs.zip metaItems).map fun p =>
          ⟨p.2.id, metadataCellValue (row.getD p.1.colIndex Cell.none)⟩
        { d with items := d.items.map fun it =>
            if it.id = itemObj.id then { it with attributesMetadata := attrs } else it }

/-- What one validated metadata sheet does to its target dimension: install the
`attributeMetadataItems` (line 328-329) then scan the data rows (lines 332-363). -/
def processTargetDim (sheetIdx : Nat) (s : Sheet) (hs : List MetaHdr) (d : Dimension) :
    Dimension :=
  let metaItems := (indexed 0 hs).map fun p => MetaItem.mk (metaItemId sheetIdx p.1) p.2.columnName
  (s.rows.drop 1).foldl (applyMetaRow hs metaItems)
    { d with attributeMetadataItems := metaItems }

/-- Processing of one `Metadata_` sheet (lines 262-364).  `Except.error` models
the `process.exit(1)` on duplicate cleaned column names. -/
def processMetadataSheet (dims : List Dimension) (sheetIdx : Nat) (s : Sheet) :
    Except DupError (List Dimension) :=
  match findDimensionByCleanName dims (metaTargetName s) with
  | Option.none => .ok dims
  | some td =>
    match s.rows with
    | [] => .ok (dims.map fun d =>
        if d.id = td.id then { d with attributeMetadataItems := [] } else d)
    | headerRow :: _ =>
      let hs := metadataHeaders headerRow
      let dups := duplicatesOf hs
      if dups.isEmpty then
        .ok (dims.map fun d => if d.id = td.id then processTargetDim sheetIdx s hs d else d)
      else
        .error ⟨s.name, dups.map fun p => (p.1, p.2.map (mkDupOcc s.name))⟩

/-- The Metadata Merger main loop over the sheet-index/sheet pairs whose name
carries the `Metadata_` prefix; the first fatal sheet aborts the run. -/
def mergeMetadataGo : List (Nat × Sheet) → List Dimension → Except DupError (List Dimension)
  | [], dims => .ok dims
  | p :: rest, dims =>
    match processMetadataSheet dims p.1 p.2 with
    | .error e => .error e
    | .ok dims1 => mergeMetadataGo rest dims1

def mergeMetadata (sheets : List Sheet) (dims : List Dimension) :
    Except DupError (List Dimension) :=
  mergeMetadataGo ((indexed 0 sheets).filter fun p => sStartsWith p.2.name "Metadata_") dims

/-! ### Pass 4: Catalog Reconciler, entity half (caseTable.js lines 393-418) -/

/-- The `attrNameToId` map (lines 393-399): keyed by upper-cased cleaned name,
empty keys skipped, later entries overwriting earlier ones (JS `Map.set`). -/
def attrLookup (attrs : List CatalogAttr) (k : String) : Option String :=
  ((attrs.filterMap fun a =>
      let key := sToUpper (cleanId a.name)
      if key = "" then Option.none else some (key, a.id)).reverse.find?
    fun p => p.1 = k).map Prod.snd

/-- Reconciliation of one dimension (lines 405-418): the updated dimension plus
the value added to the `unresolved` set, if any. -/
def reconcileDim (attrs : List CatalogAttr) (sd : Dimension) : Dimension × Option String :=
  match sd.referencedId with
  | Option.none => (sd, Option.none)
  | some rid =>
    if uuidTest rid then (sd, Option.none)
    else
      let key := sToUpper (cleanId rid)
      if key = "" then (sd, Option.none)
      else
        match attrLookup attrs key with
        | some mapped => ({ sd with referencedId := some mapped }, Option.none)
        | Option.none => (sd, some rid)

/-- The whole entity-reconciliation pass: updated dimensions and the `unresolved`
set (insertion-ordered, first occurrence kept, as a JS `Set` iterates). -/
def reconcileDims (attrs : List CatalogAttr) (dims : List Dimension) :
    List Dimension × List String :=
  (dims.map fun sd => (reconcileDim attrs sd).1,
   dedupFirst (dims.filterMap fun sd => (reconcileDim attrs sd).2))

/-! ### Pass 5: Missing-Dimension Synthesizer (caseTable.js lines 422-442) -/

/-- `selectedDimensionHasName` (lines 422-424). -/
def selectedDimensionHasName (dims : List Dimension) (cleanName : String) : Bool :=
  dims.any fun sd => sToUpper (cleanId sd.name) = sToUpper cleanName

/-- The `dimensionList` build loop (lines 426-442). -/
def synthesizeDimensionList (attrs : List CatalogAttr) (dims : List Dimension) :
    List Dimension :=
  (indexed 0 attrs).filterMap fun p =>
    let key := cleanId p.2.name
    if key = "" then Option.none
    else if selectedDimensionHasName dims key then Option.none
    else some ⟨synthDimId p.1, p.2.name, false, [], [], [], some p.2.id⟩

instance {α β : Type} [DecidableEq α] [DecidableEq β] : DecidableEq (Except α β) := fun a b =>
  match a, b with
  | .error x, .error y => if h : x = y then isTrue (by rw [h]) else isFalse (by simp [h])
  | .ok x, .ok y => if h : x = y then isTrue (by rw [h]) else isFalse (by simp [h])
  | .error _, .ok _ => isFalse (by simp)
  | .ok _, .error _ => isFalse (by simp)

/-! ### Helper lemmas about the list utilities -/

theorem mem_dedupFirstGo [DecidableEq α] (seen : List α) (l : List α) (a : α) :
    a ∈ dedupFirstGo seen l ↔ a ∈ l ∧ a ∉ seen := by
  induction l generalizing seen with
  | nil => simp [dedupFirstGo]
  | cons b t ih =>
    simp only [dedupFirstGo]
    split
    · rename_i hb
      rw [ih]
      constructor
      · rintro ⟨ht, hs⟩
        exact ⟨List.mem_cons_of_mem _ ht, hs⟩
      · rintro ⟨hl, hs⟩
        rcases List.mem_cons.mp hl with h | h
        · exact absurd (h ▸ hb) hs
        · exact ⟨h, hs⟩
    · rename_i hb
      constructor
      · intro h
        rcases List.mem_cons.mp h with h | h
        · exact ⟨h ▸ List.mem_cons_self _ _, h ▸ hb⟩
        · rcases (ih _).mp h with ⟨ht, hs⟩
          refine ⟨List.mem_cons_of_mem _ ht, fun hc => hs (List.mem_cons_of_mem _ hc)⟩
      · rintro ⟨hl, hs⟩
        rcases List.mem_cons.mp hl with h | h
        · exact h ▸ List.mem_cons_self _ _
        · by_cases hab : a = b
          · exact hab ▸ List.mem_cons_self _ _
          · exact List.mem_cons_of_mem _ ((ih _).mpr
              ⟨h, fun hc => (List.mem_cons.mp hc).elim hab hs⟩)

theorem mem_dedupFirst [DecidableEq α] (l : List α) (a : α) :
    a ∈ dedupFirst l ↔ a ∈ l := by
  rw [dedupFirst, mem_dedupFirstGo]
  simp

theorem snd_mem_of_mem_indexed {l : List α} {n : Nat} {p : Nat × α}
    (h : p ∈ indexed n l) : p.2 ∈ l := by
  induction l generalizing n with
  | nil => simp [indexed] at h
  | cons b t ih =>
    simp only [indexed, List.mem_cons] at h
    rcases h with h | h
    · simp [h]
    · exact List.mem_cons_of_mem _ (ih h)

theorem mem_indexed_of_mem {l : List α} {a : α} (h : a ∈ l) (n : Nat) :
    ∃ i, (i, a) ∈ indexed n l := by
  induction l generalizing n with
  | nil => simp at h
  | cons b t ih =>
    rcases List.mem_cons.mp h with h | h
    · exact ⟨n, h ▸ List.mem_cons_self _ _⟩
    · obtain ⟨i, hi⟩ := ih h (n + 1)
      exact ⟨i, List.mem_cons_of_mem _ hi⟩

theorem indexed_length (l : List α) (n : Nat) : (indexed n l).length = l.length := by
  induction l generalizing n with
  | nil => rfl
  | cons b t ih => simp [indexed, ih]

/-- Every character of the trimmed string occurs in the original string. -/
theorem mem_of_mem_jsTrim {s : String} {c : Char} (h : c ∈ (jsTrim s).data) :
    c ∈ s.data := by
  simp only [jsTrim, List.mem_reverse] at h
  have h1 := (List.dropWhile_sublist (l := (s.data.dropWhile jsWhitespace).reverse)
    (p := jsWhitespace)).subset h
  rw [List.mem_reverse] at h1
  exact (List.dropWhile_sublist (l := s.data) (p := jsWhitespace)).subset h1

/-! ### Claim C9: `clean` is idempotent, total, and produces only `[A-Za-z0-9_]` -/

/-- Claim C9: for every input string, `clean (clean s) = clean s`; `clean` is
total, mapping `null`/`undefined` cells and the empty string to the empty
string; and every character of its result lies in `[A-Za-z0-9_]` (in
particular, all whitespace is removed). -/
theorem spec_c9_clean_idempotent (s : String) :
    cleanId (cleanId s) = cleanId s ∧
    (∀ c ∈ (cleanId s).data, isIdChar c = true ∧ jsWhitespace c = false) ∧
    cleanIdCell Cell.none = "" ∧ cleanId "" = "" := by
  have hchar : ∀ c ∈ (cleanId s).data, isIdChar c = true ∧ jsWhitespace c = false := by
    intro c hc
    simp only [cleanId, List.mem_filter] at hc
    refine ⟨hc.2, ?_⟩
    have := hc.1.2
    simpa using this
  refine ⟨?_, hchar, rfl, rfl⟩
  show (⟨((cleanId s).data.filter (fun c => !jsWhitespace c)).filter isIdChar⟩ : String) = cleanId s
  have h1 : (cleanId s).data.filter (fun c => !jsWhitespace c) = (cleanId s).data := by
    rw [List.filter_eq_self]
    intro c hc
    simpa using (hchar c hc).2
  rw [h1]
  have h2 : (cleanId s).data.filter isIdChar = (cleanId s).data := by
    rw [List.filter_eq_self]
    intro c hc
    exact (hchar c hc).1
  rw [h2]

/-! ### Claim C4: the `parseNumber` floor on directly supplied numbers -/

/-- Claim C4: a finite number supplied directly as a cell value is floored,
`parseNumberOrNullCell` returning `1` when it is `<= 0` and the number itself
otherwise; `undefined`/`null`, empty-string and boolean cells return `null`. -/
theorem spec_c4_parse_number_policy :
    (∀ q : Rat, parseNumberOrNullCell (.num (.finite q)) = some (if q ≤ 0 then 1 else q)) ∧
    parseNumberOrNullCell Cell.none = Option.none ∧
    parseNumberOrNullCell (.str "") = Option.none ∧
    (∀ b, parseNumberOrNullCell (.bool b) = Option.none) := by
  refine ⟨fun q => rfl, rfl, by simp [parseNumberOrNullCell], fun b => rfl⟩

/-! ### Claim C5: the floor shared between `parseNumber` and `parseMetadata` -/

/-- Claim C5, corrected: the two parsers agree on every finite numeric cell —
`parseMetadata` returns exactly the string form of the floored number
`parseNumber` returns — but they diverge on non-finite numeric cells
(see the counterexample at `NaN`). -/
theorem spec_c5_floor_shared (q : Rat) :
    metadataCellValue (.num (.finite q)) =
      (parseNumberOrNullCell (.num (.finite q))).map ratToJsString := by
  by_cases h : q ≤ 0 <;>
    simp [metadataCellValue, parseNumberOrNullCell, jsLeZero, jsNumToString, h]

/-- Counterexample to claim C5 as stated: for the numeric cell `NaN`,
`parseMetadata` yields `"NaN"` while `parseNumber` yields `1` (string form
`"1"`), so the two functions do not share the floor on all numeric cells. -/
theorem spec_c5_cex :
    metadataCellValue (.num .nan) ≠ (parseNumberOrNullCell (.num .nan)).map ratToJsString ∧
    metadataCellValue (.num .nan) = some "NaN" ∧
    (parseNumberOrNullCell (.num .nan)).map ratToJsString = some "1" := by
  refine ⟨by decide, by decide, by decide⟩

/-! ### Claim C10: purely textual cells parse to 1 -/

/-- Claim C10: a non-empty, non-blank string cell none of whose characters is a
digit, `'.'`, `'-'`, `'+'`, `'e'` or `'E'` parses to `1`: the strip leaves the
empty string, JS converts it to `0`, and the floor lifts it to `1`. -/
theorem spec_c10_textual_to_one (s : String) (h1 : s ≠ "") (h2 : jsTrim s ≠ "")
    (h3 : ∀ c ∈ s.data, isNumChar c = false) :
    parseNumberOrNullCell (.str s) = some 1 := by
  have hfil : (jsTrim s).data.filter isNumChar = [] := by
    rw [List.filter_eq_nil_iff]
    intro c hc
    simp [h3 c (mem_of_mem_jsTrim hc)]
  simp only [parseNumberOrNullCell, if_neg h1, parseStringPathNum, if_neg h2, hfil]
  norm_num [jsNumberList]

/-- Witness for C10 at the concrete cell `"abc"`. -/
theorem spec_c10_textual_to_one_witness : parseNumberOrNullCell (.str "abc") = some 1 :=
  spec_c10_textual_to_one "abc" (by decide) (by decide) (by decide)

/-! ### Claim C6: the worked build example -/

def dimDefault : Dimension := ⟨"", "", false, [], [], [], Option.none⟩
def itemDefault : Item := ⟨"", "", Option.none, [], [], []⟩
def distItemDefault : DistItem := ⟨"", .variant, Option.none, Option.none, ""⟩

/-- The C6 workbook: sheet `CaseTable_Region` with the specified header row and
single data row. -/
def wbC6 : List Sheet :=
  [⟨"CaseTable_Region",
    [[.str "Value", .str "StdDist", .str "VARIANT_Peak", .str "ATTRIBUTE_Channel"],
     [.str "north", .num (.finite 2), .num (.finite 5), .str "online"]]⟩]

def c6dim : Dimension := (buildSelectedDimensions wbC6).headD dimDefault
def c6item : Item := c6dim.items.headD itemDefault

/-- Claim C6: the builder turns that sheet into exactly one dimension named
`Region` with one item of value `north` and standard distribution `2`, two
distribution items (first `VARIANT` aliased `Peak`, second `ATTRIBUTE` aliased
`Channel`), and two distribution entries on the item positionally aligned with
the two distribution items. -/
theorem spec_c6_example :
    buildSelectedDimensions wbC6 = [c6dim] ∧
    c6dim.name = "Region" ∧
    c6dim.items = [c6item] ∧
    c6item.value = "north" ∧
    c6item.stdDistribution = some 2 ∧
    c6dim.distributionItems.length = 2 ∧
    (c6dim.distributionItems.headD distItemDefault).type = DistType.variant ∧
    (c6dim.distributionItems.headD distItemDefault).«alias» = "Peak" ∧
    (c6dim.distributionItems.getD 1 distItemDefault).type = DistType.attribute ∧
    (c6dim.distributionItems.getD 1 distItemDefault).«alias» = "Channel" ∧
    c6item.distributions.length = 2 ∧
    c6item.distributions.map Distribution.distributionItemId =
      c6dim.distributionItems.map DistItem.id := by
  decide

/-! ### Claim C8: the Missing-Dimension Synthesizer is idempotent -/

/-- Claim C8: running the synthesizer over the original dimensions together with
its own first output adds zero dimensions: every catalog attribute with a
non-empty cleaned name now has a dimension whose cleaned name matches. -/
theorem spec_c8_idempotent (attrs : List CatalogAttr) (dims : List Dimension) :
    synthesizeDimensionList attrs (dims ++ synthesizeDimensionList attrs dims) = [] := by
  rw [synthesizeDimensionList, List.filterMap_eq_nil_iff]
  intro p hp
  by_cases hk : cleanId p.2.name = ""
  · simp [hk]
  · have hhas :
        selectedDimensionHasName (dims ++ synthesizeDimensionList attrs dims)
          (cleanId p.2.name) = true := by
      rw [selectedDimensionHasName, List.any_append]
      by_cases hd : selectedDimensionHasName dims (cleanId p.2.name) = true
      · rw [selectedDimensionHasName] at hd
        simp [hd]
      · have hmem : (⟨synthDimId p.1, p.2.name, false, [], [], [], some p.2.id⟩ : Dimension) ∈
            synthesizeDimensionList attrs dims := by
          rw [synthesizeDimensionList, List.mem_filterMap]
          refine ⟨p, hp, ?_⟩
          simp only [hk, if_false]
          rw [if_neg (by simpa using hd)]
        have : (synthesizeDimensionList attrs dims).any
            (fun sd => sToUpper (cleanId sd.name) = sToUpper (cleanId p.2.name)) = true := by
          rw [List.any_eq_true]
          exact ⟨_, hmem, by simp⟩
        simp [this]
    simp [hk, hhas]

/-! ### Characterizations of the two cleaned-name lookups -/

theorem findDim_some {dims : List Dimension} {n : String} {td : Dimension}
    (h : findDimensionByCleanName dims n = some td) :
    td ∈ dims ∧ sToUpper (cleanId td.name) = sToUpper (cleanId n) ∧ cleanId n ≠ "" := by
  rw [findDimensionByCleanName] at h
  by_cases hn : cleanId n = ""
  · rw [if_pos hn] at h
    exact absurd h (by simp)
  · rw [if_neg hn] at h
    refine ⟨List.mem_of_find?_eq_some h, ?_, hn⟩
    have := List.find?_some h
    simpa using this

theorem findDim_none {dims : List Dimension} {n : String}
    (hne : cleanId n ≠ "") (h : findDimensionByCleanName dims n = Option.none) :
    ∀ td ∈ dims, sToUpper (cleanId td.name) ≠ sToUpper (cleanId n) := by
  rw [findDimensionByCleanName, if_neg hne] at h
  intro td htd
  have := List.find?_eq_none.mp h td htd
  simpa using this

theorem findItem_some {d : Dimension} {v : String} {it : Item}
    (h : findItemObjectInDimensionItems d v = some it) :
    it ∈ d.items ∧ sToUpper (cleanId it.value) = sToUpper (cleanId v) ∧ cleanId v ≠ "" := by
  rw [findItemObjectInDimensionItems] at h
  by_cases hv : cleanId v = ""
  · rw [if_pos hv] at h
    exact absurd h (by simp)
  · rw [if_neg hv] at h
    refine ⟨List.mem_of_find?_eq_some h, ?_, hv⟩
    have := List.find?_some h
    simpa using this

/-! ### Claim C2: the Cross-Dimension Reference Resolver -/

/-- Claim C2, corrected.  For an `ATTRIBUTE` distribution item whose alias
contains `WHEREIS` (case-insensitively, at first occurrence `whereIdx`): when
the dimension lookup on the before-text succeeds, `referencedId` becomes that
dimension's id (the first dimension, in build order, whose cleaned upper-cased
name equals the cleaned upper-cased before-text) and `referencedItemId` becomes
the id of the first matching item of that dimension or `null`; when the
dimension lookup fails both fields become `null` — but a failed lookup only
implies that no dimension matches when the cleaned before-text is non-empty
(an empty cleaned before-text never matches anything, even a dimension whose
cleaned name is itself empty; see the counterexample).  Without the marker the
whole alias is looked up as a dimension name and `referencedItemId` stays
`null`.  Resolution is a total function, so no error is ever raised. -/
theorem spec_c2_resolution (dims : List Dimension) (dist : DistItem)
    (ht : dist.type = DistType.attribute) (ha : dist.«alias» ≠ "") :
    (∀ whereIdx, strIndexOf (sToUpper dist.«alias») "WHEREIS" = some whereIdx →
      (∀ td, findDimensionByCleanName dims (sTake dist.«alias» whereIdx) = some td →
        (resolveDistItem dims dist).referencedId = some td.id ∧
        td ∈ dims ∧
        sToUpper (cleanId td.name) = sToUpper (cleanId (sTake dist.«alias» whereIdx)) ∧
        (∀ it, findItemObjectInDimensionItems td (sDrop dist.«alias» (whereIdx + 7)) = some it →
          (resolveDistItem dims dist).referencedItemId = some it.id ∧
          it ∈ td.items ∧
          sToUpper (cleanId it.value) =
            sToUpper (cleanId (sDrop dist.«alias» (whereIdx + 7)))) ∧
        (findItemObjectInDimensionItems td (sDrop dist.«alias» (whereIdx + 7)) = Option.none →
          (resolveDistItem dims dist).referencedItemId = Option.none)) ∧
      (findDimensionByCleanName dims (sTake dist.«alias» whereIdx) = Option.none →
        (resolveDistItem dims dist).referencedId = Option.none ∧
        (resolveDistItem dims dist).referencedItemId = Option.none) ∧
      (cleanId (sTake dist.«alias» whereIdx) ≠ "" →
        findDimensionByCleanName dims (sTake dist.«alias» whereIdx) = Option.none →
        ∀ td ∈ dims,
          sToUpper (cleanId td.name) ≠ sToUpper (cleanId (sTake dist.«alias» whereIdx)))) ∧
    (strIndexOf (sToUpper dist.«alias») "WHEREIS" = Option.none →
      (resolveDistItem dims dist).referencedId =
        (findDimensionByCleanName dims dist.«alias»).map Dimension.id ∧
      (resolveDistItem dims dist).referencedItemId = Option.none) := by
  constructor
  · intro whereIdx hw
    refine ⟨?_, ?_, ?_⟩
    · intro td hfind
      have hres : resolveDistItem dims dist =
          { dist with referencedId := some td.id
                      referencedItemId :=
                        (findItemObjectInDimensionItems td
                          (sDrop dist.«alias» (whereIdx + 7))).map Item.id } := by
        rw [resolveDistItem, if_neg (by simp [ht]), if_neg ha, hw]
        dsimp only
        rw [hfind]
      obtain ⟨hmem, hname, -⟩ := findDim_some hfind
      refine ⟨by rw [hres], hmem, hname, ?_, ?_⟩
      · intro it hit
        obtain ⟨himem, hival, -⟩ := findItem_some hit
        refine ⟨?_, himem, hival⟩
        rw [hres, hit]
        simp
      · intro hit
        rw [hres, hit]
        simp
    · intro hfind
      have hres : resolveDistItem dims dist =
          { dist with referencedId := Option.none, referencedItemId := Option.none } := by
        rw [resolveDistItem, if_neg (by simp [ht]), if_neg ha, hw]
        dsimp only
        rw [hfind]
      exact ⟨by rw [hres], by rw [hres]⟩
    · intro hne hfind
      exact findDim_none hne hfind
  · intro hw
    have hres : resolveDistItem dims dist =
        { dist with referencedId := (findDimensionByCleanName dims dist.«alias»).map Dimension.id
                    referencedItemId := Option.none } := by
      rw [resolveDistItem, if_neg (by simp [ht]), if_neg ha, hw]
    exact ⟨by rw [hres], by rw [hres]⟩

/-- The C2 counterexample workbook: a dimension whose cleaned name is empty
(sheet `CaseTable_###`) and an `ATTRIBUTE` column whose alias starts with the
marker, so the before-text also cleans to the empty string. -/
def wbC2 : List Sheet :=
  [⟨"CaseTable_###", []⟩,
   ⟨"CaseTable_X", [[.str "Value", .str "Std", .str "ATTRIBUTE_WHEREISFoo"]]⟩]

def c2dims : List Dimension := buildSelectedDimensions wbC2
def c2dist : DistItem :=
  ((resolveAttributeRefs c2dims).getD 1 dimDefault).distributionItems.headD distItemDefault

/-- Counterexample to claim C2 as stated: the resolved `ATTRIBUTE` item has the
marker at index 0, a dimension whose cleaned upper-cased name equals the cleaned
upper-cased before-text exists (both are empty), yet `referencedId` is `null` —
the resolver never matches a dimension when the cleaned before-text is empty. -/
theorem spec_c2_cex :
    c2dist.type = DistType.attribute ∧
    strIndexOf (sToUpper c2dist.«alias») "WHEREIS" = some 0 ∧
    (∃ td ∈ c2dims, sToUpper (cleanId td.name) = sToUpper (cleanId (sTake c2dist.«alias» 0))) ∧
    c2dist.referencedId = Option.none ∧
    c2dist.referencedItemId = Option.none := by
  decide

/-- The C2 witness workbook and distribution item: `Region WHEREIS north`
with both dimension and item present. -/
def wbC2w : List Sheet :=
  [⟨"CaseTable_Region", [[.str "Value", .str "Std"], [.str "north"]]⟩]
def c2wdims : List Dimension := buildSelectedDimensions wbC2w
def c2wdist : DistItem := ⟨"dX", .attribute, Option.none, Option.none, "RegionWHEREISnorth"⟩

/-- Witness for C2: on the alias `RegionWHEREISnorth` the resolver links the
`Region` dimension's id and the id of its item `north`. -/
theorem spec_c2_resolution_witness :
    (resolveDistItem c2wdims c2wdist).referencedId = some (c2wdims.headD dimDefault).id ∧
    (resolveDistItem c2wdims c2wdist).referencedItemId =
      some ((c2wdims.headD dimDefault).items.headD itemDefault).id := by
  have h := (spec_c2_resolution c2wdims c2wdist (by decide) (by decide)).1 6 (by decide)
  have h2 := h.1 (c2wdims.headD dimDefault) (by decide)
  refine ⟨h2.1, ?_⟩
  have h3 := h2.2.2.2.1 ((c2wdims.headD dimDefault).items.headD itemDefault) (by decide)
  exact h3.1

/-! ### Claim C7: entity reconciliation -/

theorem attrLookup_some {attrs : List CatalogAttr} {k aid : String}
    (h : attrLookup attrs k = some aid) :
    ∃ a ∈ attrs, sToUpper (cleanId a.name) = k ∧ a.id = aid := by
  rw [attrLookup] at h
  obtain ⟨p, hp, hpa⟩ := Option.map_eq_some'.mp h
  have hpk : p.1 = k := by simpa using List.find?_some hp
  have hpm := List.mem_of_find?_eq_some hp
  rw [List.mem_reverse, List.mem_filterMap] at hpm
  obtain ⟨a, ha, hfa⟩ := hpm
  by_cases hk : sToUpper (cleanId a.name) = ""
  · rw [if_pos hk] at hfa
    exact absurd hfa (by simp)
  · rw [if_neg hk] at hfa
    have h1 : sToUpper (cleanId a.name) = p.1 := congrArg Prod.fst (Option.some.inj hfa)
    have h2 : a.id = p.2 := congrArg Prod.snd (Option.some.inj hfa)
    exact ⟨a, ha, h1.trans hpk, h2.trans hpa⟩

theorem attrLookup_none {attrs : List CatalogAttr} {k : String}
    (h : attrLookup attrs k = Option.none) :
    ∀ a ∈ attrs, sToUpper (cleanId a.name) ≠ "" → sToUpper (cleanId a.name) ≠ k := by
  rw [attrLookup] at h
  have hf := Option.map_eq_none'.mp h
  intro a ha hk hak
  have hpm : (sToUpper (cleanId a.name), a.id) ∈
      (attrs.filterMap fun a =>
        let key := sToUpper (cleanId a.name)
        if key = "" then Option.none else some (key, a.id)).reverse := by
    rw [List.mem_reverse, List.mem_filterMap]
    exact ⟨a, ha, by simp [hk]⟩
  have := List.find?_eq_none.mp hf _ hpm
  simp [hak] at this

theorem mem_unresolved {attrs : List CatalogAttr} {dims : List Dimension} {sd : Dimension}
    {rid : String} (hmem : sd ∈ dims) (h : (reconcileDim attrs sd).2 = some rid) :
    rid ∈ (reconcileDims attrs dims).2 := by
  rw [reconcileDims]
  rw [mem_dedupFirst, List.mem_filterMap]
  exact ⟨sd, hmem, h⟩

/-- Claim C7, corrected.  After the entity-reconciliation pass (which never
aborts and maps each dimension independently): a `referencedId` already in the
canonical 8-4-4-4-12 shape is left unchanged; otherwise, when the cleaned
upper-cased `referencedId` is empty the dimension is skipped entirely —
unchanged and *not* recorded as unresolved, even though catalog attributes with
empty cleaned names exist outside the lookup map (see the counterexample);
when it is non-empty, a map hit replaces `referencedId` with the id registered
for that name (some catalog attribute with that cleaned upper-cased name), and
a miss keeps the original value, records it in the unresolved set, and
guarantees that no catalog attribute with a non-empty cleaned name matches. -/
theorem spec_c7_reconcile (attrs : List CatalogAttr) (dims : List Dimension)
    (sd : Dimension) (hmem : sd ∈ dims) :
    ((reconcileDims attrs dims).1 = dims.map fun d => (reconcileDim attrs d).1) ∧
    (sd.referencedId = Option.none → (reconcileDim attrs sd).1 = sd) ∧
    (∀ rid, sd.referencedId = some rid →
      (uuidTest rid = true → (reconcileDim attrs sd).1 = sd) ∧
      (uuidTest rid = false → sToUpper (cleanId rid) = "" →
        (reconcileDim attrs sd).1 = sd ∧ (reconcileDim attrs sd).2 = Option.none) ∧
      (uuidTest rid = false → sToUpper (cleanId rid) ≠ "" →
        (∀ aid, attrLookup attrs (sToUpper (cleanId rid)) = some aid →
          (reconcileDim attrs sd).1 = { sd with referencedId := some aid } ∧
          ∃ a ∈ attrs, sToUpper (cleanId a.name) = sToUpper (cleanId rid) ∧ a.id = aid) ∧
        (attrLookup attrs (sToUpper (cleanId rid)) = Option.none →
          (reconcileDim attrs sd).1 = sd ∧
          rid ∈ (reconcileDims attrs dims).2 ∧
          ∀ a ∈ attrs, sToUpper (cleanId a.name) ≠ "" →
            sToUpper (cleanId a.name) ≠ sToUpper (cleanId rid)))) := by
  refine ⟨rfl, fun h => by rw [reconcileDim, h], ?_⟩
  intro rid hrid
  refine ⟨?_, ?_, ?_⟩
  · intro huuid
    rw [reconcileDim, hrid]
    dsimp only
    rw [if_pos huuid]
  · intro huuid hkey
    rw [reconcileDim, hrid]
    dsimp only
    rw [if_neg (by simp [huuid]), if_pos hkey]
    exact ⟨rfl, rfl⟩
  · intro huuid hkey
    constructor
    · intro aid hfind
      have hres : (reconcileDim attrs sd).1 = { sd with referencedId := some aid } := by
        rw [reconcileDim, hrid]
        dsimp only
        rw [if_neg (by simp [huuid]), if_neg hkey, hfind]
      exact ⟨hres, attrLookup_some hfind⟩
    · intro hfind
      have hres : reconcileDim attrs sd = (sd, some rid) := by
        rw [reconcileDim, hrid]
        dsimp only
        rw [if_neg (by simp [huuid]), if_neg hkey, hfind]
      refine ⟨by rw [hres], ?_, attrLookup_none hfind⟩
      exact mem_unresolved hmem (by rw [hres])

/-- The C7 counterexample input: a dimension whose `referencedId` cleans to the
empty string, and a catalog attribute whose name also cleans to the empty
string. -/
def c7cexDim : Dimension := ⟨"d0", "Dim", false, [], [], [], some "###"⟩
def c7cexAttrs : List CatalogAttr := [⟨"aid1", "%%%"⟩]

/-- Counterexample to claim C7 as stated: `"###"` is not identifier-shaped and
the catalog holds an attribute whose cleaned upper-cased name equals the
dimension's cleaned upper-cased `referencedId` (both empty), yet the pass
neither replaces the `referencedId` nor records the value in the unresolved
set — the empty cleaned key is skipped outright. -/
theorem spec_c7_cex :
    uuidTest "###" = false ∧
    sToUpper (cleanId "%%%") = sToUpper (cleanId "###") ∧
    (reconcileDims c7cexAttrs [c7cexDim]).1 = [c7cexDim] ∧
    (reconcileDims c7cexAttrs [c7cexDim]).2 = [] := by
  decide

def c7wAttrs : List CatalogAttr := [⟨"attr-uuid-1", "Region"⟩]
def c7wDim : Dimension := ⟨"d1", "R", false, [], [], [], some "Nope"⟩

/-- Witness for C7 at a concrete miss: `"Nope"` is kept and recorded in the
unresolved set. -/
theorem spec_c7_reconcile_witness :
    (reconcileDim c7wAttrs c7wDim).1 = c7wDim ∧
    "Nope" ∈ (reconcileDims c7wAttrs [c7wDim]).2 := by
  have h := ((spec_c7_reconcile c7wAttrs [c7wDim] c7wDim (by decide)).2.2 "Nope"
    (by decide)).2.2 (by decide) (by decide)
  have h2 := h.2 (by decide)
  exact ⟨h2.1, h2.2.1⟩

/-! ### Claim C3: the fatal duplicate-metadata-column check -/

theorem dup_group_mem {hs : List MetaHdr} {h : MetaHdr} (hmem : h ∈ hs)
    (hlen : 2 ≤ (dupKeyOcc hs (sToUpper h.columnName)).length) :
    (sToUpper h.columnName, dupKeyOcc hs (sToUpper h.columnName)) ∈ duplicatesOf hs := by
  rw [duplicatesOf, List.mem_filterMap]
  refine ⟨sToUpper h.columnName, ?_, by rw [if_pos hlen]⟩
  rw [mem_dedupFirst]
  exact List.mem_map_of_mem _ hmem

theorem self_mem_dupKeyOcc {hs : List MetaHdr} {h : MetaHdr} (hmem : h ∈ hs) :
    h ∈ dupKeyOcc hs (sToUpper h.columnName) := by
  rw [dupKeyOcc, List.mem_filter]
  exact ⟨hmem, by simp⟩

theorem duplicatesOf_eq_nil {hs : List MetaHdr}
    (huniq : ∀ h ∈ hs, (dupKeyOcc hs (sToUpper h.columnName)).length ≤ 1) :
    duplicatesOf hs = [] := by
  rw [duplicatesOf, List.filterMap_eq_nil_iff]
  intro k hk
  rw [mem_dedupFirst, List.mem_map] at hk
  obtain ⟨h, hh, hkey⟩ := hk
  rw [if_neg]
  intro h2
  have := huniq h hh
  rw [hkey] at this
  omega

/-- Claim C3: for a metadata sheet matching an existing dimension, if two or
more of its columns (second column onward, non-empty after cleaning) share the
same cleaned upper-cased header, the run aborts — the sheet processing returns
the fatal diagnostic, which names, for *every* occurrence of a duplicated
name, the sheet, the Excel column letter, and the original header text.  When
all cleaned column names are unique, the sheet is processed without aborting at
this check. -/
theorem spec_c3_duplicate_abort (dims : List Dimension) (i : Nat) (s : Sheet)
    (td : Dimension) (hmatch : findDimensionByCleanName dims (metaTargetName s) = some td) :
    ((∃ h ∈ metadataHeaders (s.rows.headD []),
        2 ≤ (dupKeyOcc (metadataHeaders (s.rows.headD [])) (sToUpper h.columnName)).length) →
      ∃ e, processMetadataSheet dims i s = .error e ∧ e.sheetName = s.name ∧
        ∀ h ∈ metadataHeaders (s.rows.headD []),
          2 ≤ (dupKeyOcc (metadataHeaders (s.rows.headD [])) (sToUpper h.columnName)).length →
          ∃ grp ∈ e.duplicates, grp.1 = sToUpper h.columnName ∧
            mkDupOcc s.name h ∈ grp.2) ∧
    ((∀ h ∈ metadataHeaders (s.rows.headD []),
        (dupKeyOcc (metadataHeaders (s.rows.headD [])) (sToUpper h.columnName)).length ≤ 1) →
      ∃ dims2, processMetadataSheet dims i s = .ok dims2) := by
  rcases hrows : s.rows with _ | ⟨hr, rest⟩
  · constructor
    · intro hdup
      simp [metadataHeaders, indexed] at hdup
    · intro _
      exact ⟨dims.map fun d =>
          if d.id = td.id then { d with attributeMetadataItems := [] } else d,
        by rw [processMetadataSheet, hmatch, hrows]⟩
  · simp only [List.headD_cons]
    constructor
    · intro hdup
      obtain ⟨h0, hh0, hlen0⟩ := hdup
      have hne : duplicatesOf (metadataHeaders hr) ≠ [] :=
        List.ne_nil_of_mem (dup_group_mem hh0 hlen0)
      refine ⟨⟨s.name, (duplicatesOf (metadataHeaders hr)).map
          fun p => (p.1, p.2.map (mkDupOcc s.name))⟩, ?_, rfl, ?_⟩
      · rw [processMetadataSheet, hmatch, hrows]
        dsimp only
        rw [if_neg (by simpa using hne)]
      · intro h hmem hlen
        refine ⟨(sToUpper h.columnName,
          (dupKeyOcc (metadataHeaders hr) (sToUpper h.columnName)).map (mkDupOcc s.name)),
          ?_, rfl, ?_⟩
        · exact List.mem_map_of_mem _ (dup_group_mem hmem hlen)
        · exact List.mem_map_of_mem _ (self_mem_dupKeyOcc hmem)
    · intro huniq
      refine ⟨dims.map fun d =>
          if d.id = td.id then processTargetDim i s (metadataHeaders hr) d else d, ?_⟩
      rw [processMetadataSheet, hmatch, hrows]
      dsimp only
      rw [if_pos (by simp [duplicatesOf_eq_nil huniq])]

/-- The C3 witness workbook: a dimension `D` and a metadata sheet whose columns
`"Cost A"` and `"costa"` both clean to `COSTA` (case-insensitively). -/
def c3wDims : List Dimension := buildSelectedDimensions [⟨"CaseTable_D", []⟩]
def c3wSheet : Sheet := ⟨"Metadata_D", [[.str "V", .str "Cost A", .str "costa"]]⟩

/-- Witness for C3: the duplicate sheet aborts with a diagnostic naming every
offending column. -/
theorem spec_c3_duplicate_abort_witness :
    ∃ e, processMetadataSheet c3wDims 1 c3wSheet = .error e ∧ e.sheetName = "Metadata_D" ∧
      ∀ h ∈ metadataHeaders (c3wSheet.rows.headD []),
        2 ≤ (dupKeyOcc (metadataHeaders (c3wSheet.rows.headD []))
          (sToUpper h.columnName)).length →
        ∃ grp ∈ e.duplicates, grp.1 = sToUpper h.columnName ∧
          mkDupOcc "Metadata_D" h ∈ grp.2 :=
  (spec_c3_duplicate_abort c3wDims 1 c3wSheet (c3wDims.headD dimDefault) (by decide)).1
    (by decide)

/-! ### Claim C1: the alignment invariants -/

/-- Every item's distribution list is positionally aligned with the dimension's
distribution items. -/
def distAligned (d : Dimension) : Prop :=
  ∀ it ∈ d.items, it.distributions.length = d.distributionItems.length

/-- Every item's metadata list is either still empty (no metadata row matched
it) or aligned with the dimension's metadata columns. -/
def metaAligned (d : Dimension) : Prop :=
  ∀ it ∈ d.items, it.attributesMetadata = [] ∨
    it.attributesMetadata.length = d.attributeMetadataItems.length

/-- No item of the dimension has received any metadata yet. -/
def metaUntouched (d : Dimension) : Prop :=
  ∀ it ∈ d.items, it.attributesMetadata = []

/-- `applyMetaRow` either leaves the dimension alone or updates the matched
item(s) with a metadata list of length `min |hs| |metaItems|`. -/
theorem applyMetaRow_cases (hs : List MetaHdr) (metaItems : List MetaItem)
    (x : Dimension) (row : List Cell) :
    applyMetaRow hs metaItems x row = x ∨
    ∃ attrs : List MetaAttr, attrs.length = min hs.length metaItems.length ∧
      ∃ iid : String, applyMetaRow hs metaItems x row =
        { x with items := x.items.map fun it =>
            if it.id = iid then { it with attributesMetadata := attrs } else it } := by
  rw [applyMetaRow]
  dsimp only
  split
  · exact Or.inl rfl
  split
  · exact Or.inl rfl
  split
  · exact Or.inl rfl
  split
  · exact Or.inl rfl
  · rename_i itemObj _
    exact Or.inr ⟨_, by simp, itemObj.id, rfl⟩

/-- The running state of one metadata sheet's application to its target. -/
def targetInv (base : Dimension) (metaItems : List MetaItem) (x : Dimension) : Prop :=
  x.id = base.id ∧ x.name = base.name ∧
  x.attributeMetadataItems = metaItems ∧
  x.distributionItems = base.distributionItems ∧
  (∀ it ∈ x.items, it.distributions.length = base.distributionItems.length) ∧
  (∀ it ∈ x.items, it.attributesMetadata = [] ∨
      it.attributesMetadata.length = metaItems.length)

theorem applyMetaRow_targetInv {base x : Dimension} {hs : List MetaHdr}
    {metaItems : List MetaItem} (hlen : metaItems.length = hs.length)
    (hx : targetInv base metaItems x) (row : List Cell) :
    targetInv base metaItems (applyMetaRow hs metaItems x row) := by
  obtain ⟨hid, hname, hmeta, hdist, hdl, hml⟩ := hx
  rcases applyMetaRow_cases hs metaItems x row with h | ⟨attrs, hal, iid, h⟩
  · rw [h]
    exact ⟨hid, hname, hmeta, hdist, hdl, hml⟩
  · rw [h]
    refine ⟨hid, hname, hmeta, hdist, ?_, ?_⟩
    · intro it' hit'
      rw [List.mem_map] at hit'
      obtain ⟨it, hitm, rfl⟩ := hit'
      by_cases hii : it.id = iid <;> simp [hii, hdl it hitm]
    · intro it' hit'
      rw [List.mem_map] at hit'
      obtain ⟨it, hitm, rfl⟩ := hit'
      by_cases hii : it.id = iid
      · rw [if_pos hii]
        right
        simpa [hlen] using hal
      · rw [if_neg hii]
        exact hml it hitm

theorem foldl_applyMetaRow_targetInv {base : Dimension} {hs : List MetaHdr}
    {metaItems : List MetaItem} (hlen : metaItems.length = hs.length) :
    ∀ (rows : List (List Cell)) (x : Dimension), targetInv base metaItems x →
      targetInv base metaItems (rows.foldl (applyMetaRow hs metaItems) x) := by
  intro rows
  induction rows with
  | nil => exact fun x hx => hx
  | cons r rs ih =>
    intro x hx
    exact ih _ (applyMetaRow_targetInv hlen hx r)

theorem processTargetDim_inv {d : Dimension} (i : Nat) (s : Sheet) (hs : List MetaHdr)
    (hd : distAligned d) (hu : metaUntouched d) :
    distAligned (processTargetDim i s hs d) ∧ metaAligned (processTargetDim i s hs d) ∧
    (processTargetDim i s hs d).id = d.id ∧ (processTargetDim i s hs d).name = d.name := by
  have hlen : ((indexed 0 hs).map fun p =>
      MetaItem.mk (metaItemId i p.1) p.2.columnName).length = hs.length := by
    rw [List.length_map, indexed_length]
  have hinit : targetInv d ((indexed 0 hs).map fun p =>
      MetaItem.mk (metaItemId i p.1) p.2.columnName)
      { d with attributeMetadataItems := (indexed 0 hs).map fun p =>
          MetaItem.mk (metaItemId i p.1) p.2.columnName } := by
    exact ⟨rfl, rfl, rfl, rfl, fun it h => hd it h, fun it h => Or.inl (hu it h)⟩
  have hfin := foldl_applyMetaRow_targetInv hlen (s.rows.drop 1) _ hinit
  obtain ⟨hid, hname, hmeta, hdist, hdl, hml⟩ := hfin
  rw [processTargetDim]
  refine ⟨?_, ?_, hid, hname⟩
  · intro it hit
    rw [hdist]
    exact hdl it hit
  · intro it hit
    rcases hml it hit with h | h
    · exact Or.inl h
    · right
      rw [hmeta, h]

/-- The variant needed for the unconditional distributions half: applying a
metadata sheet to any dimension never touches distributions. -/
theorem processTargetDim_distAligned {d : Dimension} (i : Nat) (s : Sheet)
    (hs : List MetaHdr) (hd : distAligned d) :
    distAligned (processTargetDim i s hs d) := by
  have hgen : ∀ (rows : List (List Cell)) (x : Dimension),
      x.distributionItems = d.distributionItems →
      (∀ it ∈ x.items, it.distributions.length = d.distributionItems.length) →
      distAligned (rows.foldl (applyMetaRow hs
        ((indexed 0 hs).map fun p => MetaItem.mk (metaItemId i p.1) p.2.columnName)) x) := by
    intro rows
    induction rows with
    | nil =>
      intro x h1 h2
      simp only [List.foldl_nil]
      intro it hit
      rw [h1]
      exact h2 it hit
    | cons r rs ih =>
      intro x h1 h2
      rcases applyMetaRow_cases hs _ x r with h | ⟨attrs, -, iid, h⟩
      · rw [List.foldl_cons, h]
        exact ih x h1 h2
      · rw [List.foldl_cons, h]
        refine ih _ h1 ?_
        intro it' hit'
        rw [List.mem_map] at hit'
        obtain ⟨it, hitm, rfl⟩ := hit'
        by_cases hii : it.id = iid <;> simp [hii, h2 it hitm]
  rw [processTargetDim]
  exact hgen (s.rows.drop 1) _ rfl (fun it h => hd it h)

theorem find?_ext {α : Type} {p q : α → Bool} (h : ∀ a, p a = q a) (l : List α) :
    l.find? p = l.find? q := by
  induction l with
  | nil => rfl
  | cons a t ih =>
    by_cases hp : p a
    · rw [List.find?_cons_of_pos _ hp, List.find?_cons_of_pos _ ((h a) ▸ hp)]
    · rw [List.find?_cons_of_neg _ hp, List.find?_cons_of_neg _ ((h a) ▸ hp), ih]

theorem find?_map_comm {α β : Type} (f : α → β) (l : List α) (p : β → Bool) :
    (l.map f).find? p = (l.find? fun a => p (f a)).map f := by
  induction l with
  | nil => rfl
  | cons a t ih =>
    simp only [List.map_cons, List.find?_cons]
    cases hp : p (f a) <;> simp [hp, ih]

theorem findDim_map {dims : List Dimension} {f : Dimension → Dimension}
    (hf : ∀ d, (f d).name = d.name) (n : String) :
    findDimensionByCleanName (dims.map f) n = (findDimensionByCleanName dims n).map f := by
  rw [findDimensionByCleanName, findDimensionByCleanName]
  by_cases hn : cleanId n = ""
  · rw [if_pos hn, if_pos hn]
    rfl
  · rw [if_neg hn, if_neg hn, find?_map_comm]
    exact congrArg (Option.map f) (find?_ext (fun d => by rw [hf d]) dims)

theorem foldl_applyMetaRow_idname (hs : List MetaHdr) (mi : List MetaItem) :
    ∀ (rows : List (List Cell)) (x : Dimension),
      ((rows.foldl (applyMetaRow hs mi) x).id = x.id ∧
       (rows.foldl (applyMetaRow hs mi) x).name = x.name) := by
  intro rows
  induction rows with
  | nil => exact fun x => ⟨rfl, rfl⟩
  | cons r rs ih =>
    intro x
    rw [List.foldl_cons]
    rcases applyMetaRow_cases hs mi x r with h | ⟨attrs, -, iid, h⟩ <;>
      · rw [h]
        exact ih _

theorem processTargetDim_idname (i : Nat) (s : Sheet) (hs : List MetaHdr) (d : Dimension) :
    (processTargetDim i s hs d).id = d.id ∧ (processTargetDim i s hs d).name = d.name := by
  rw [processTargetDim]
  exact foldl_applyMetaRow_idname _ _ _ _

/-- Structural description of a successful `processMetadataSheet`. -/
theorem processMetadataSheet_ok_cases {dims : List Dimension} {i : Nat} {s : Sheet}
    {dims1 : List Dimension} (h : processMetadataSheet dims i s = .ok dims1) :
    dims1 = dims ∨
    ∃ td, findDimensionByCleanName dims (metaTargetName s) = some td ∧
      ((dims1 = dims.map fun d =>
          if d.id = td.id then { d with attributeMetadataItems := [] } else d) ∨
       ∃ hs, dims1 = dims.map fun d =>
          if d.id = td.id then processTargetDim i s hs d else d) := by
  rw [processMetadataSheet] at h
  rcases hfind : findDimensionByCleanName dims (metaTargetName s) with _ | td
  · rw [hfind] at h
    exact Or.inl (Except.ok.inj h).symm
  · rw [hfind] at h
    rcases hrows : s.rows with _ | ⟨hr, rest⟩
    · rw [hrows] at h
      exact Or.inr ⟨td, rfl, Or.inl (Except.ok.inj h).symm⟩
    · rw [hrows] at h
      dsimp only at h
      split at h
      · exact Or.inr ⟨td, rfl, Or.inr ⟨metadataHeaders hr, (Except.ok.inj h).symm⟩⟩
      · exact absurd h (by simp)

/-- The distributions half of the invariant survives the whole metadata merge
unconditionally. -/
theorem mergeGo_distAligned :
    ∀ (ms : List (Nat × Sheet)) (dims dims' : List Dimension),
      mergeMetadataGo ms dims = .ok dims' →
      (∀ d ∈ dims, distAligned d) →
      ∀ d ∈ dims', distAligned d := by
  intro ms
  induction ms with
  | nil =>
    intro dims dims' hok hA
    rw [mergeMetadataGo] at hok
    have := Except.ok.inj hok
    subst this
    exact hA
  | cons p rest ih =>
    intro dims dims' hok hA
    rw [mergeMetadataGo] at hok
    rcases hps : processMetadataSheet dims p.1 p.2 with e | dims1
    · rw [hps] at hok
      exact absurd hok (by simp)
    · rw [hps] at hok
      refine ih dims1 dims' hok ?_
      rcases processMetadataSheet_ok_cases hps with rfl | ⟨td, -, hcase⟩
      · exact hA
      · rcases hcase with rfl | ⟨hs, rfl⟩
        · intro d' hd'
          rw [List.mem_map] at hd'
          obtain ⟨d, hd, rfl⟩ := hd'
          by_cases hid : d.id = td.id
          · rw [if_pos hid]
            exact fun it hit => hA d hd it hit
          · rw [if_neg hid]
            exact hA d hd
        · intro d' hd'
          rw [List.mem_map] at hd'
          obtain ⟨d, hd, rfl⟩ := hd'
          by_cases hid : d.id = td.id
          · rw [if_pos hid]
            exact processTargetDim_distAligned p.1 p.2 hs (hA d hd)
          · rw [if_neg hid]
            exact hA d hd

/-- The metadata half of the invariant survives the merge, provided no two
metadata sheets address the same dimension, because then every sheet finds its
target with all items still metadata-free. -/
theorem mergeGo_metaAligned :
    ∀ (ms : List (Nat × Sheet)) (dims dims' : List Dimension),
      mergeMetadataGo ms dims = .ok dims' →
      (∀ d ∈ dims, distAligned d ∧ metaAligned d) →
      (∀ p ∈ ms, ∀ td, findDimensionByCleanName dims (metaTargetName p.2) = some td →
        ∀ d ∈ dims, d.id = td.id → metaUntouched d) →
      List.Pairwise (fun p q : Nat × Sheet =>
        ∀ t1 t2, findDimensionByCleanName dims (metaTargetName p.2) = some t1 →
          findDimensionByCleanName dims (metaTargetName q.2) = some t2 → t1.id ≠ t2.id) ms →
      ∀ d ∈ dims', distAligned d ∧ metaAligned d := by
  intro ms
  induction ms with
  | nil =>
    intro dims dims' hok hA hB hC
    rw [mergeMetadataGo] at hok
    have := Except.ok.inj hok
    subst this
    exact hA
  | cons p rest ih =>
    intro dims dims' hok hA hB hC
    rw [mergeMetadataGo] at hok
    rcases hps : processMetadataSheet dims p.1 p.2 with e | dims1
    · rw [hps] at hok
      exact absurd hok (by simp)
    · rw [hps] at hok
      obtain ⟨hhead, htail⟩ := List.pairwise_cons.mp hC
      rcases processMetadataSheet_ok_cases hps with rfl | ⟨td, hfind, hcase⟩
      · exact ih _ dims' hok hA (fun q hq => hB q (List.mem_cons_of_mem _ hq)) htail
      · -- the sheet updated its target `td` via a map over `dims`
        have hApply : ∀ (f : Dimension → Dimension),
            (∀ d, (f d).id = d.id ∧ (f d).name = d.name) →
            (∀ d, distAligned d → metaUntouched d → distAligned (f d) ∧ metaAligned (f d)) →
            (∀ d, d.id ≠ td.id → f d = d) →
            dims1 = dims.map f →
            ∀ d ∈ dims', distAligned d ∧ metaAligned d := by
          intro f hfidname hfgood hfskip hdims1
          subst hdims1
          refine ih (dims.map f) dims' hok ?_ ?_ ?_
          · intro d' hd'
            rw [List.mem_map] at hd'
            obtain ⟨d, hd, rfl⟩ := hd'
            by_cases hid : d.id = td.id
            · exact hfgood d (hA d hd).1 (hB p (List.mem_cons_self _ _) td hfind d hd hid)
            · rw [hfskip d hid]
              exact hA d hd
          · intro q hq td2 hfind2 d' hd' hid'
            rw [findDim_map (fun d => (hfidname d).2)] at hfind2
            obtain ⟨td1, hfind1, rfl⟩ := Option.map_eq_some'.mp hfind2
            rw [List.mem_map] at hd'
            obtain ⟨d, hd, rfl⟩ := hd'
            have hne : td1.id ≠ td.id := fun hcontra =>
              hhead q hq td td1 hfind hfind1 hcontra.symm
            have hdne : d.id ≠ td.id := by
              rw [← (hfidname d).1]
              rw [hid', (hfidname td1).1]
              exact hne
            rw [hfskip d hdne]
            refine hB q (List.mem_cons_of_mem _ hq) td1 hfind1 d hd ?_
            rw [← (hfidname d).1, hid', (hfidname td1).1]
          · refine htail.imp ?_
            intro a b hab t1 t2 h1 h2
            rw [findDim_map (fun d => (hfidname d).2)] at h1 h2
            obtain ⟨u1, hu1, rfl⟩ := Option.map_eq_some'.mp h1
            obtain ⟨u2, hu2, rfl⟩ := Option.map_eq_some'.mp h2
            rw [(hfidname u1).1, (hfidname u2).1]
            exact hab u1 u2 hu1 hu2
        rcases hcase with hdims1 | ⟨hs, hdims1⟩
        · refine hApply _ (fun d => ?_) (fun d hd hu => ?_) (fun d hne => if_neg hne) hdims1
          · by_cases hid : d.id = td.id <;> simp [hid]
          · by_cases hid : d.id = td.id
            · rw [if_pos hid]
              exact ⟨fun it hit => hd it hit, fun it hit => Or.inl (hu it hit)⟩
            · rw [if_neg hid]
              exact ⟨hd, fun it hit => Or.inl (hu it hit)⟩
        · refine hApply _ (fun d => ?_) (fun d hd hu => ?_) (fun d hne => if_neg hne) hdims1
          · by_cases hid : d.id = td.id
            · rw [if_pos hid]
              have := processTargetDim_idname p.1 p.2 hs d
              exact this
            · simp [hid]
          · by_cases hid : d.id = td.id
            · rw [if_pos hid]
              have := processTargetDim_inv p.1 p.2 hs hd hu
              exact ⟨this.1, this.2.1⟩
            · rw [if_neg hid]
              exact ⟨hd, fun it hit => Or.inl (hu it hit)⟩

/-- Invariants established by the Dimension Builder alone. -/
theorem buildDimension_invariants (i : Nat) (s : Sheet) :
    distAligned (buildDimension i s) ∧ metaUntouched (buildDimension i s) := by
  rw [buildDimension]
  rcases hrows : s.rows with _ | ⟨hr, dataRows⟩
  · exact ⟨fun it hit => absurd hit (by simp), fun it hit => absurd hit (by simp)⟩
  · dsimp only
    have hitems : ∀ it ∈ buildItems i
        ((indexed 0 (((hr.map cleanIdCell).drop 2).filter fun h => h ≠ "")).map
          fun q => mkDistItem i q.1 q.2) dataRows,
        it.distributions.length =
          ((indexed 0 (((hr.map cleanIdCell).drop 2).filter fun h => h ≠ "")).map
            fun q => mkDistItem i q.1 q.2).length ∧
        it.attributesMetadata = [] := by
      intro it hit
      rw [buildItems, List.mem_filterMap] at hit
      obtain ⟨r, -, hr2⟩ := hit
      by_cases h1 : r.2.all isCellEmpty
      · rw [if_pos h1] at hr2
        exact absurd hr2 (by simp)
      · rw [if_neg h1] at hr2
        by_cases h2 : isCellEmpty (r.2.headD Cell.none)
        · rw [if_pos h2] at hr2
          exact absurd hr2 (by simp)
        · rw [if_neg h2] at hr2
          have := Option.some.inj hr2
          subst this
          refine ⟨?_, rfl⟩
          rw [buildItem]
          dsimp only
          rw [List.length_map, indexed_length]
    exact ⟨fun it hit => (hitems it hit).1, fun it hit => (hitems it hit).2⟩

/-- After the build and reference-resolution passes every dimension is aligned
and still metadata-free. -/
theorem dims0_invariants (sheets : List Sheet) :
    ∀ d ∈ resolveAttributeRefs (buildSelectedDimensions sheets),
      distAligned d ∧ metaUntouched d ∧ metaAligned d := by
  intro d hd
  rw [resolveAttributeRefs, List.mem_map] at hd
  obtain ⟨d0, hd0, rfl⟩ := hd
  have h0 : distAligned d0 ∧ metaUntouched d0 := by
    rw [buildSelectedDimensions, List.mem_map] at hd0
    obtain ⟨p, -, rfl⟩ := hd0
    exact ⟨(buildDimension_invariants p.1 p.2).1, (buildDimension_invariants p.1 p.2).2⟩
  refine ⟨?_, fun it hit => h0.2 it hit, fun it hit => Or.inl (h0.2 it hit)⟩
  intro it hit
  show it.distributions.length =
    (d0.distributionItems.map
      (resolveDistItem (buildSelectedDimensions sheets))).length
  rw [List.length_map]
  exact h0.1 it hit

/-- Claim C1, corrected.  After the metadata-merge pass completes successfully,
`len(item.distributions) = len(dimension.distributionItems)` holds for every
item of every dimension, unconditionally.  The metadata half holds in the
weaker form forced by the counterexample: provided no two metadata sheets
address the same dimension, every item's `attributesMetadata` is either still
the empty list (no metadata row matched the item — in which case the claimed
equality fails whenever the dimension has metadata columns) or has exactly
`len(dimension.attributeMetadataItems)` entries. -/
theorem spec_c1_alignment (sheets : List Sheet) (dims' : List Dimension)
    (hok : mergeMetadata sheets (resolveAttributeRefs (buildSelectedDimensions sheets)) =
      .ok dims') :
    (∀ d ∈ dims', distAligned d) ∧
    (List.Pairwise (fun p q : Nat × Sheet =>
        ∀ t1 t2,
          findDimensionByCleanName (resolveAttributeRefs (buildSelectedDimensions sheets))
            (metaTargetName p.2) = some t1 →
          findDimensionByCleanName (resolveAttributeRefs (buildSelectedDimensions sheets))
            (metaTargetName q.2) = some t2 →
          t1.id ≠ t2.id)
      ((indexed 0 sheets).filter fun p => sStartsWith p.2.name "Metadata_") →
      ∀ d ∈ dims', distAligned d ∧ metaAligned d) := by
  rw [mergeMetadata] at hok
  have h0 := dims0_invariants sheets
  refine ⟨?_, ?_⟩
  · exact mergeGo_distAligned _ _ _ hok fun d hd => (h0 d hd).1
  · intro hpair
    exact mergeGo_metaAligned _ _ _ hok
      (fun d hd => ⟨(h0 d hd).1, (h0 d hd).2.2⟩)
      (fun p _ td _ d hd _ => (h0 d hd).2.1)
      hpair

/-- The C1 counterexample workbook: item `b` has no metadata row, so its
metadata list stays empty while the dimension declares one metadata column. -/
def wbC1 : List Sheet :=
  [⟨"CaseTable_D", [[.str "V", .str "S"], [.str "a"], [.str "b"]]⟩,
   ⟨"Metadata_D", [[.str "V", .str "M"], [.str "a", .num (.finite 1)]]⟩]

/-- Counterexample to claim C1 as stated: after the metadata-merge pass
completes, a dimension contains an item (one no metadata row matched) whose
`attributesMetadata` length differs from the dimension's
`attributeMetadataItems` length. -/
theorem spec_c1_cex :
    ∃ dims, mergeMetadata wbC1 (resolveAttributeRefs (buildSelectedDimensions wbC1)) =
        .ok dims ∧
      ∃ d ∈ dims, ∃ it ∈ d.items,
        it.attributesMetadata.length ≠ d.attributeMetadataItems.length := by
  refine ⟨(mergeMetadata wbC1 (resolveAttributeRefs (buildSelectedDimensions wbC1))).toOption.getD
    [], by decide, by decide⟩

/-- The C1 witness workbook: one case-table sheet, one metadata sheet. -/
def wbC1w : List Sheet :=
  [⟨"CaseTable_D", [[.str "V", .str "S"], [.str "a"]]⟩,
   ⟨"Metadata_D", [[.str "V", .str "M"], [.str "a", .num (.finite 1)]]⟩]

def c1wDims : List Dimension :=
  (mergeMetadata wbC1w (resolveAttributeRefs (buildSelectedDimensions wbC1w))).toOption.getD []

/-- Witness for C1 on a concrete workbook whose single metadata sheet matches a
single dimension. -/
theorem spec_c1_alignment_witness :
    distAligned (c1wDims.headD dimDefault) ∧ metaAligned (c1wDims.headD dimDefault) := by
  have h := spec_c1_alignment wbC1w c1wDims (by decide)
  have hpair : List.Pairwise (fun p q : Nat × Sheet =>
      ∀ t1 t2,
        findDimensionByCleanName (resolveAttributeRefs (buildSelectedDimensions wbC1w))
          (metaTargetName p.2) = some t1 →
        findDimensionByCleanName (resolveAttributeRefs (buildSelectedDimensions wbC1w))
          (metaTargetName q.2) = some t2 →
        t1.id ≠ t2.id)
      ((indexed 0 wbC1w).filter fun p => sStartsWith p.2.name "Metadata_") := by
    have : ((indexed 0 wbC1w).filter fun p => sStartsWith p.2.name "Metadata_") =
        [(1, ⟨"Metadata_D", [[.str "V", .str "M"], [.str "a", .num (.finite 1)]]⟩)] := by
      decide
    rw [this]
    exact List.pairwise_singleton _ _
  exact h.2 hpair (c1wDims.headD dimDefault) (by decide)

end DDG
